import Mathlib

/-!
Verification of the core scanning and driver logic of grep.c (GNU grep 2.5
era, single-file core).  Each definition below is a shallow embedding of a
function (or a delimited section of a function) of src/src/grep.c; the line
numbers in the doc comments refer to that file.  Buffers are modelled as
lists of byte values, pointers as natural-number indices into the buffer,
size_t arithmetic as natural numbers reduced modulo 2^64 where the source
relies on overflow behaviour, and off_t as integers.
-/

namespace Grep

/-- Modulus of size_t arithmetic (the source targets 64-bit size_t). -/
def W : Nat := 2 ^ 64

/-- ALIGN_TO macro, grep.c lines 245-248: round val up to the next multiple
of alignment, in size_t arithmetic (the addition can wrap). -/
def alignToW (val alignment : Nat) : Nat :=
  if val % alignment = 0 then val else (val + (alignment - val % alignment)) % W

/-- Outcome of a diagnostic routine: whether a message was printed, and the
value of the global errseen flag afterwards. -/
structure Diag where
  reported : Bool
  errseen : Bool
deriving DecidableEq, Repr

/-- error(), grep.c lines 147-154: prints a message unconditionally and does
not touch errseen. -/
def error (errseen : Bool) : Diag :=
  { reported := true, errseen := errseen }

/-- suppressible_error(), grep.c lines 156-163: prints unless suppress_errors
is set, and always sets errseen. -/
def suppressible_error (suppress errseen : Bool) : Diag :=
  { reported := !suppress, errseen := true }

/-- fatal(), grep.c lines 166-171: reports and exits with status 2. -/
def fatalExitCode : Nat := 2

/-- Exit-status composition in main(), grep.c lines 1511-1528: status starts
at 1 and is bitwise-ANDed with each grepfile result (a single grepfile call
without the loop gives the same fold since every grepfile result is 0 or 1);
the process exits with 2 when errseen is set, else with the folded status. -/
def mainExitStatus (errseen : Bool) (statuses : List Nat) : Nat :=
  if errseen then 2 else statuses.foldl Nat.land 1

/-- Teardown in main(), grep.c lines 1525-1528: a failing fclose of stdout is
reported through error(), which leaves errseen unchanged, and then the
process exits with errseen-or-status.  Result: (exit code, whether the
writing-output diagnostic was printed). -/
def mainTeardown (fcloseFails errseen : Bool) (status : Nat) : Nat × Bool :=
  let d := if fcloseFails then error errseen else { reported := false, errseen := errseen }
  (if d.errseen then 2 else status, d.reported)

/-- The fstat branch of reset(), grep.c lines 299-303: on fstat failure it
calls error() (not suppressible_error) and returns 0, making grep() skip the
file.  Result: (reset return value as a Bool, diagnostic outcome). -/
def resetFstat (fstatOk errseen : Bool) : Bool × Diag :=
  if fstatOk then (true, { reported := false, errseen := errseen })
  else (false, error errseen)

/-- Separator emission in prtext(), grep.c lines 596-610: after rewinding p
for leading context, puts a literal line consisting of two dashes when output
is not suppressed, a context option is active, some prtext call already
happened (used), and p differs from lastout.  puts always appends the newline
byte 10, independent of eolbyte.  lastout is an optional index (none models
the NULL pointer).  The returned list is the exact byte sequence written. -/
def prtextSep (out_quiet : Bool) (out_before out_after : Nat) (used : Bool)
    (p : Nat) (lastout : Option Nat) : List Nat :=
  if out_quiet = false ∧ (out_before ≠ 0 ∨ out_after ≠ 0) ∧ used = true ∧ some p ≠ lastout then
    [45, 45, 10]
  else []

/-- How main() handles directories, grep.c lines 128-134. -/
inductive DirPolicy where
  | read
  | skip
  | recurse
deriving DecidableEq, Repr

/-- Observable behaviour of one input source, abstracting the system calls
made by grepfile(), grep.c lines 822-921.  isStdin models a null file
argument; openOk whether open() eventually succeeds; eisdir whether the open
errno satisfies is_EISDIR; statOk/statIsDir the result of the stat() calls in
the failure branches; eacces whether errno is EACCES; grepCount the value
returned by grep() when the descriptor is obtained (at least -2: a
nonnegative line count, or grepdir status minus 2); grepdirStatus the value
grepdir() returns when grepfile delegates to it on an EISDIR open failure. -/
structure FileOutcome where
  isStdin : Bool
  openOk : Bool
  eisdir : Bool
  statOk : Bool
  statIsDir : Bool
  eacces : Bool
  grepCount : Int
  grepdirStatus : Nat
deriving DecidableEq, Repr

/-- Status computation after a descriptor was obtained, grep.c lines 887-899:
negative counts come from directory recursion and are shifted by 2, otherwise
the status is the logical negation of the count. -/
def grepfileAfterOpen (grepCount : Int) : Nat :=
  if grepCount < 0 then (grepCount + 2).toNat
  else if grepCount = 0 then 1 else 0

/-- grepfile(), grep.c lines 822-921, reduced to its status and errseen
behaviour.  Returns (status, whether this call set errseen itself).  Errors
inside grep() and grepdir() are attributed to those models, not here. -/
def grepfile (dirs : DirPolicy) (suppress : Bool) (io : FileOutcome) : Nat × Bool :=
  if io.isStdin then (grepfileAfterOpen io.grepCount, false)
  else if io.openOk then (grepfileAfterOpen io.grepCount, false)
  else if io.eisdir ∧ dirs = DirPolicy.recurse then
    if io.statOk then (io.grepdirStatus, false)
    else (1, false)
  else if suppress = false ∧ dirs = DirPolicy.skip ∧ io.eisdir then (1, false)
  else if suppress = false ∧ dirs = DirPolicy.skip ∧ io.eacces ∧ io.statOk ∧ io.statIsDir then
    (1, false)
  else (1, true)

/-- The condition under which grepfile prints at least one matching line or
reports a match: a descriptor was obtained and grep() returned a positive
count or the recursive-directory match marker -2, or the EISDIR-recurse
delegation succeeded with grepdir status 0. -/
def grepfileMatched (dirs : DirPolicy) (io : FileOutcome) : Prop :=
  ((io.isStdin = true ∨ io.openOk = true) ∧ (0 < io.grepCount ∨ io.grepCount = -2))
  ∨ (io.isStdin = false ∧ io.openOk = false ∧ io.eisdir = true ∧ dirs = DirPolicy.recurse
     ∧ io.statOk = true ∧ io.grepdirStatus = 0)

instance (dirs : DirPolicy) (io : FileOutcome) : Decidable (grepfileMatched dirs io) := by
  unfold grepfileMatched; infer_instance

/-- The save-region growth loop of fillbuf(), grep.c lines 367-376: while
bufsalloc is below save it is doubled in size_t arithmetic; if the doubling
would not increase it (overflow), it is set to the page-aligned save value
and the loop stops.  Each productive step strictly increases bufsalloc, so
the loop runs at most save iterations; the fuel argument is an upper bound
on the iteration count, never exhausted when fuel exceeds save - bufsalloc. -/
def growSallocAux (save alignedSave : Nat) : Nat → Nat → Nat
  | 0, bufsalloc => bufsalloc
  | fuel + 1, bufsalloc =>
    if bufsalloc < save then
      if bufsalloc < bufsalloc * 2 % W then growSallocAux save alignedSave fuel (bufsalloc * 2 % W)
      else alignedSave
    else bufsalloc

/-- The growth loop with enough fuel to reach its fixed point. -/
def growSalloc (save alignedSave bufsalloc : Nat) : Nat :=
  growSallocAux save alignedSave (save + 1) bufsalloc

/-- Result of the buffer-growth section of fillbuf. -/
structure FillbufGrow where
  bufsalloc : Nat
  bufalloc : Nat
  fatal : Bool
deriving DecidableEq, Repr

/-- The upper allocation bound computed in fillbuf(), grep.c lines 351-365:
effectively unlimited, except for a regular file where it is the page-aligned
save plus the page-aligned remaining file size, when that value is
nonnegative and representable as a size_t.  stSize and bufoffset are off_t
values, modelled as integers; the C remainder on off_t is truncating, hence
Int.tmod. -/
def fillbufMaxalloc (pagesize save : Nat) (isReg : Bool) (stSize bufoffset : Int) : Nat :=
  let alignedSave := alignToW save pagesize
  let toBeRead : Int := stSize - bufoffset
  let slop : Int := toBeRead.tmod pagesize
  let alignedToBeRead : Int := toBeRead + (if slop ≠ 0 then (pagesize : Int) - slop else 0)
  let maxallocOff : Int := (alignedSave : Int) + alignedToBeRead
  if isReg = true ∧ 0 ≤ maxallocOff ∧ maxallocOff < (W : Int) then maxallocOff.toNat
  else W - 1

/-- The buffer-growth section of fillbuf(), grep.c lines 348-400, entered
when bufsalloc < save.  Grows the save region by the doubling loop, requests
a total of PREFERRED_SAVE_FACTOR (5) times the new save region in size_t
arithmetic, caps the request at fillbufMaxalloc (resetting bufsalloc to the
page-aligned save when the cap bites), reports memory exhaustion when the
calculations made no progress, and reallocates only when the request exceeds
the current allocation (page_alloc is assumed to succeed; its failure is the
other fatal case).  When save ≤ bufsalloc the section is skipped. -/
def fillbufGrow (pagesize save bufsalloc bufalloc : Nat)
    (isReg : Bool) (stSize bufoffset : Int) : FillbufGrow :=
  if save ≤ bufsalloc then ⟨bufsalloc, bufalloc, false⟩
  else
    let alignedSave := alignToW save pagesize
    let maxalloc := fillbufMaxalloc pagesize save isReg stSize bufoffset
    let bufsalloc1 := growSalloc save alignedSave bufsalloc
    let newalloc0 := 5 * bufsalloc1 % W
    let capped := maxalloc < newalloc0
    let bufsalloc2 := if capped then alignedSave else bufsalloc1
    let newalloc := if capped then maxalloc else newalloc0
    if bufsalloc2 < save ∨ newalloc < save ∨ (newalloc = save ∧ newalloc ≠ maxalloc) then
      ⟨bufsalloc2, bufalloc, true⟩
    else
      ⟨bufsalloc2, if bufalloc < newalloc then newalloc else bufalloc, false⟩

/-- memchr over the buffer region [start, stop): index of the first byte
equal to c, or none (the NULL return).  Out-of-range reads yield the
impossible byte value 256 and so never match. -/
def memchrIdx (buf : List Nat) (c start stop : Nat) : Option Nat :=
  (List.range' start (stop - start)).find? fun i => buf.getD i 256 = c

/-- Outcome of the grepbuf scan loop.  ok carries the line count, the list of
printed regions (as half-open index intervals), the final scan position and
the remaining output budget; exited0 models the exit(0) path of
exit_on_match; crash models the undefined behaviour after memchr returns
NULL inside prtext; fuelOut reports that the loop did not finish within the
given number of iterations. -/
inductive GOut where
  | ok (nlines : Nat) (events : List (Nat × Nat)) (p outleft : Nat)
  | exited0 (events : List (Nat × Nat))
  | crash
  | fuelOut
deriving DecidableEq, Repr

/-- Regions printed by a grepbuf outcome. -/
def GOut.events : GOut → List (Nat × Nat)
  | .ok _ evs _ _ => evs
  | .exited0 evs => evs
  | .crash => []
  | .fuelOut => []

/-- The line-counting loop of prtext() when a line count is requested,
grep.c lines 621-632: split [p, lim) at end-of-line bytes, emitting each line
and counting at most outleft of them.  none models the memchr NULL return
(the source would then treat address 1 as a line end).  Each productive step
advances p past the found end-of-line byte, so lim - p + 1 fuel suffices. -/
def prtextCountAux (buf : List Nat) (eol lim outleft : Nat) :
    Nat → Nat → Nat → List (Nat × Nat) → Option (Nat × List (Nat × Nat))
  | 0, _, _, _ => none
  | fuel + 1, p, n, acc =>
    if p < lim ∧ n < outleft then
      match memchrIdx buf eol p lim with
      | none => none
      | some i => prtextCountAux buf eol lim outleft fuel (i + 1) (n + 1) (acc ++ [(p, i + 1)])
    else some (n, acc)

/-- Counting entry point used by grepbuf in inverted mode. -/
def prtextCount (buf : List Nat) (eol beg lim outleft : Nat) :
    Option (Nat × List (Nat × Nat)) :=
  prtextCountAux buf eol lim outleft (lim - beg + 1) beg 0 []

/-- Exit path of the grepbuf loop, grep.c lines 688-693: in inverted mode any
remaining segment [p, lim) is printed line by line, otherwise the loop result
is returned as is. -/
def grepbufFinish (buf : List Nat) (eol : Nat) (out_invert : Bool)
    (lim p nlines outleft : Nat) (evs : List (Nat × Nat)) : GOut :=
  if out_invert = true ∧ p < lim then
    match prtextCount buf eol p lim outleft with
    | none => .crash
    | some (n, evs2) => .ok (nlines + n) (evs ++ evs2) p (outleft - n)
  else .ok nlines evs p outleft

/-- The scan loop of grepbuf(), grep.c lines 648-695, over an abstract
matcher execute: at scan position p, execute receives the remaining length
lim - p and returns the match offset and size or none.  A match starting
exactly at lim breaks the loop; in normal mode the match region [b, endp) is
printed (prtext with a null line-count pointer), the budget decremented, and
the loop returns early when the budget is exhausted or done_on_match is set
(exiting the process under exit_on_match); in inverted mode the segment
[p, b) before the match is printed line by line.  The scan position then
advances to endp.  The fuel argument bounds the number of iterations. -/
def grepbufLoop (buf : List Nat) (eol : Nat) (execute : Nat → Nat → Option (Nat × Nat))
    (out_invert done_on_match exit_on_match : Bool) (lim : Nat) :
    Nat → Nat → Nat → Nat → List (Nat × Nat) → GOut
  | 0, _, _, _, _ => .fuelOut
  | fuel + 1, p, nlines, outleft, evs =>
    match execute p (lim - p) with
    | none => grepbufFinish buf eol out_invert lim p nlines outleft evs
    | some (off, size) =>
      let b := p + off
      let endp := b + size
      if b = lim then grepbufFinish buf eol out_invert lim p nlines outleft evs
      else if out_invert = false then
        let evs2 := evs ++ [(b, endp)]
        let ol2 := outleft - 1
        if ol2 = 0 ∨ done_on_match = true then
          if exit_on_match = true then .exited0 evs2 else .ok (nlines + 1) evs2 endp ol2
        else
          grepbufLoop buf eol execute out_invert done_on_match exit_on_match lim
            fuel endp (nlines + 1) ol2 evs2
      else if p < b then
        match prtextCount buf eol p b outleft with
        | none => .crash
        | some (n, evs2) =>
          if outleft - n = 0 then .ok (nlines + n) (evs ++ evs2) p 0
          else
            grepbufLoop buf eol execute out_invert done_on_match exit_on_match lim
              fuel endp (nlines + n) (outleft - n) (evs ++ evs2)
      else
        grepbufLoop buf eol execute out_invert done_on_match exit_on_match lim
          fuel endp nlines outleft evs

/-- The loop of nlscan(), grep.c lines 507-516: starting at lastnl (the beg
argument here), repeatedly find the next end-of-line byte before lim, step
one past it and count a line, until the position reaches lim exactly.  none
models the undefined behaviour after memchr returns NULL (the source would
then advance from the null pointer).  Every productive step moves past a
byte below lim, so fuel lim - beg + 1 suffices when the loop is safe. -/
def nlscanGo (buf : List Nat) (eol lim : Nat) : Nat → Nat → Nat → Option Nat
  | 0, _, _ => none
  | fuel + 1, beg, totalnl =>
    if beg = lim then some totalnl
    else
      match memchrIdx buf eol beg lim with
      | none => none
      | some i => nlscanGo buf eol lim fuel (i + 1) (totalnl + 1)

/-- nlscan(), grep.c lines 507-516: count the newlines in [lastnl, lim) and
move lastnl to lim; some (totalnl, lastnl) on safe completion. -/
def nlscan (buf : List Nat) (eol lastnl lim totalnl : Nat) : Option (Nat × Nat) :=
  (nlscanGo buf eol lim (lim + 1 - lastnl) lastnl totalnl).map fun t => (t, lim)

/-- The residue computation in grep(), grep.c lines 762-763: scan down from
buflim until the position is at beg or directly preceded by an end-of-line
byte; the result is the limit of the complete-line segment. -/
def residueScan (buf : List Nat) (eol beg : Nat) : Nat → Nat
  | 0 => 0
  | lim + 1 =>
    if beg < lim + 1 ∧ buf.getD lim 256 ≠ eol then residueScan buf eol beg lim
    else lim + 1

/-- The inner rewind loop of grep() (and of the leading-context rewind in
prtext), grep.c lines 783-786: after the initial decrement, keep stepping
back while above bufbeg and not directly past an end-of-line byte.  The
argument is the position after the initial decrement. -/
def rewindLoop (buf : List Nat) (eol bufbeg : Nat) : Nat → Nat
  | 0 => 0
  | b + 1 => if bufbeg < b + 1 ∧ buf.getD b 256 ≠ eol then rewindLoop buf eol bufbeg b else b + 1

/-- The leading-context rewind of grep(), grep.c lines 779-787: step back up
to out_before whole lines from lim, stopping at bufbeg or at lastout (none
models the NULL lastout pointer, which an index never equals). -/
def contextRewind (buf : List Nat) (eol bufbeg : Nat) (lastout : Option Nat) :
    Nat → Nat → Nat
  | 0, beg => beg
  | k + 1, beg =>
    if bufbeg < beg ∧ some beg ≠ lastout then
      contextRewind buf eol bufbeg lastout k (rewindLoop buf eol bufbeg (beg - 1))
    else beg

/-- A directory entry as seen by grepdir(), grep.c lines 949-968: either a
non-directory file whose grepfile status is given, or a subdirectory
identified by its (st_dev, st_ino) pair. -/
inductive Entry where
  | file (status : Nat)
  | dir (node : Nat × Nat)
deriving DecidableEq, Repr

/-- The per-entry loop of grepdir(), grep.c lines 959-968: fold the status of
each entry into the running status with bitwise AND, recursing into
subdirectories through the supplied recursion function and collecting the
loop diagnostics it reports; none propagates fuel exhaustion. -/
def grepdirKids (recurse : Nat × Nat → Option (Nat × List (Nat × Nat))) :
    List Entry → Nat → List (Nat × Nat) → Option (Nat × List (Nat × Nat))
  | [], st, ds => some (st, ds)
  | Entry.file s :: rest, st, ds => grepdirKids recurse rest (Nat.land st s) ds
  | Entry.dir n :: rest, st, ds =>
    match recurse n with
    | none => none
    | some (st2, d2) => grepdirKids recurse rest (Nat.land st st2) (ds ++ d2)

/-- grepdir(), grep.c lines 923-976, over an abstract filesystem fs giving
the entries of each directory node.  chain is the ancestor (device, inode)
list, parent first, matching the stats chain walk of lines 930-938: when the
current node appears among its ancestors, a recursive-directory-loop warning
is printed (unless suppressed, modelled by returning the reported node) and
status 1 is returned without enumerating the directory.  Otherwise the
entries are processed with the current node prepended to the chain.  The
fuel argument bounds the recursion depth; none reports exhaustion. -/
def grepdirF (fs : Nat × Nat → List Entry) (suppress : Bool) :
    Nat → List (Nat × Nat) → Nat × Nat → Option (Nat × List (Nat × Nat))
  | 0, _, _ => none
  | fuel + 1, chain, cur =>
    if cur ∈ chain then some (1, if suppress then [] else [cur])
    else grepdirKids (fun n => grepdirF fs suppress fuel (cur :: chain) n) (fs cur) 1 []

/-! Theorems.  Each claim theorem carries the claim id in its doc comment. -/

/-- Bitwise AND with a zero accumulator is zero. -/
theorem land_zero_left (s : Nat) : Nat.land 0 s = 0 := by
  simp [Nat.land, Nat.bitwise]

/-- Folding bitwise AND from zero stays zero. -/
theorem foldl_land_zero (l : List Nat) : l.foldl Nat.land 0 = 0 := by
  induction l with
  | nil => rfl
  | cons s rest ih => simpa [land_zero_left] using ih

/-- Folding bitwise AND from one over zero-or-one statuses yields one exactly
when all statuses are one, zero exactly when some status is zero. -/
theorem foldl_land_one (l : List Nat) (h : ∀ s ∈ l, s ≤ 1) :
    (l.foldl Nat.land 1 = 1 ↔ ∀ s ∈ l, s = 1)
    ∧ (l.foldl Nat.land 1 = 0 ↔ ∃ s ∈ l, s = 0)
    ∧ l.foldl Nat.land 1 ≤ 1 := by
  induction l with
  | nil => simp
  | cons s rest ih =>
    have hs : s ≤ 1 := h s (List.mem_cons_self s rest)
    have hrest : ∀ x ∈ rest, x ≤ 1 := fun x hx => h x (List.mem_cons_of_mem s hx)
    obtain ⟨ih1, ih2, ih3⟩ := ih hrest
    interval_cases s
    · refine ⟨?_, ?_, ?_⟩
      · simp only [List.foldl_cons]
        have h0 : Nat.land 1 0 = 0 := by decide
        rw [h0, foldl_land_zero]
        simp
      · simp only [List.foldl_cons]
        have h0 : Nat.land 1 0 = 0 := by decide
        rw [h0, foldl_land_zero]
        simp
      · simp only [List.foldl_cons]
        have h0 : Nat.land 1 0 = 0 := by decide
        rw [h0, foldl_land_zero]
        decide
    · have h1 : Nat.land 1 1 = 1 := by decide
      refine ⟨?_, ?_, ?_⟩
      · simp only [List.foldl_cons, h1]
        rw [ih1]
        simp
      · simp only [List.foldl_cons, h1]
        rw [ih2]
        simp
      · simpa [List.foldl_cons, h1] using ih3

/-- C1: the final exit status of main is 2 exactly when errseen was set by a
per-input error (a fatal error exits with 2 directly, fatalExitCode); when
errseen is clear, the status is 0 exactly when some grepfile call returned 0
(at least one line matched) and 1 exactly when every grepfile call returned 1
(no line matched).  The hypothesis that every status is 0 or 1 is discharged
for the real program by grepfile_status_range. -/
theorem exit_status_composition (errseen : Bool) (statuses : List Nat)
    (h : ∀ s ∈ statuses, s ≤ 1) :
    (mainExitStatus errseen statuses = 2 ↔ errseen = true)
    ∧ (errseen = false →
        ((mainExitStatus errseen statuses = 0 ↔ ∃ s ∈ statuses, s = 0)
         ∧ (mainExitStatus errseen statuses = 1 ↔ ∀ s ∈ statuses, s = 1)))
    ∧ fatalExitCode = 2 := by
  obtain ⟨h1, h2, h3⟩ := foldl_land_one statuses h
  cases errseen with
  | true => simp [mainExitStatus, fatalExitCode]
  | false =>
    have hne : statuses.foldl Nat.land 1 ≠ 2 := by omega
    refine ⟨by simpa [mainExitStatus] using hne, fun _ => ⟨?_, ?_⟩, rfl⟩
    · simpa [mainExitStatus] using h2
    · simpa [mainExitStatus] using h1

/-- C1 witness: exit_status_composition applied to the concrete status list
with one matching and one non-matching input. -/
theorem exit_status_composition_witness :
    (∀ s ∈ ([0, 1] : List Nat), s ≤ 1)
    ∧ (mainExitStatus false [0, 1] = 0 ↔ ∃ s ∈ ([0, 1] : List Nat), s = 0)
    ∧ mainExitStatus true [0, 1] = 2 :=
  ⟨by decide,
   ((exit_status_composition false [0, 1] (by decide)).2.1 rfl).1,
   (exit_status_composition true [0, 1] (by decide)).1.mpr rfl⟩

/-- C3: evaluation of the teardown at the failing inputs.  When fclose of
stdout fails at process close with errseen clear, the code reports the
writing-output diagnostic but exits with the unchanged 0 or 1 match status,
because error() does not set errseen; the claim (and the usage text of the
program itself, which promises exit status 2 on trouble) requires the exit
status to be raised to 2. -/
theorem fclose_error_exit_code :
    mainTeardown true false 0 = (0, true) ∧ mainTeardown true false 1 = (1, true) := by
  decide

/-- C5 counterexample: with suppress_errors set (the -s option) and errseen
initially clear, a failing fstat in reset() still reports (reported = true,
contradicting the claimed suppression under -s) and leaves errseen clear
(contradicting the claimed marking of errseen), because reset() calls error()
rather than suppressible_error(). -/
theorem reset_fstat_not_suppressed :
    resetFstat false false = (false, ⟨true, false⟩) := by decide

/-- C5 amended: when fstat fails during reset, the failure is reported
unconditionally (even with -s), errseen is left unchanged so this failure
alone never forces the final status to 2, scanning of that input stops
(reset returns false, so grep returns 0 matches and grepfile contributes
status 1), and processing continues with the subsequent inputs. -/
theorem reset_fstat_behavior (errseen : Bool) (others : List Nat)
    (h : ∀ s ∈ others, s ≤ 1) :
    resetFstat false errseen = (false, ⟨true, errseen⟩)
    ∧ (errseen = false → mainExitStatus errseen (1 :: others) ≠ 2) := by
  refine ⟨rfl, fun he => ?_⟩
  subst he
  have hall : ∀ s ∈ (1 :: others), s ≤ 1 := by
    intro s hs
    rcases List.mem_cons.mp hs with h1 | h2
    · omega
    · exact h s h2
  have := (foldl_land_one (1 :: others) hall).2.2
  simp only [mainExitStatus, if_neg (by simp : ¬(false = true))]
  omega

/-- C5 witness: reset_fstat_behavior applied to a run with one further input. -/
theorem reset_fstat_behavior_witness :
    (∀ s ∈ ([0] : List Nat), s ≤ 1)
    ∧ resetFstat false false = (false, ⟨true, false⟩)
    ∧ mainExitStatus false [1, 0] ≠ 2 :=
  ⟨by decide, (reset_fstat_behavior false [0] (by decide)).1,
   (reset_fstat_behavior false [0] (by decide)).2 rfl⟩

/-- C6 amended: prtext prints the two-dash separator line exactly when normal
output is not suppressed (out_quiet clear), leading or trailing context is
enabled, a previous prtext call happened (used), and the group start differs
from lastout; and the separator bytes are always dash, dash, newline — the
newline comes from puts and is not replaced by a NUL byte under -z. -/
theorem separator_condition_bytes (q : Bool) (b a : Nat) (u : Bool) (p : Nat)
    (lo : Option Nat) :
    (prtextSep q b a u p lo ≠ []
      ↔ (q = false ∧ (b ≠ 0 ∨ a ≠ 0) ∧ u = true ∧ some p ≠ lo))
    ∧ (prtextSep q b a u p lo = [] ∨ prtextSep q b a u p lo = [45, 45, 10]) := by
  unfold prtextSep
  split <;> simp_all

/-- C6 counterexample: with -z in effect (eolbyte 0) the separator is still
terminated by the newline byte 10, not by the NUL byte 0 as claimed (the
emission uses puts and never consults eolbyte); and with out_quiet set the
separator is not printed even though context is enabled, prior output
occurred, and the group is discontiguous, so the claimed condition is also
not exact. -/
theorem separator_newline_not_nul :
    (prtextSep false 1 0 true 5 (some 3)).getLast? = some 10 ∧ (10 : Nat) ≠ 0
    ∧ prtextSep true 1 0 true 5 (some 3) = [] := by decide

/-- C4 counterexample: a named input whose open fails with a generic error
(trouble: suppressible_error reports it and sets errseen) makes grepfile
return status 1, not the claimed 2. -/
theorem grepfile_trouble_returns_one :
    grepfile DirPolicy.read false ⟨false, false, false, false, false, false, 0, 0⟩ = (1, true)
    ∧ (grepfile DirPolicy.read false
        ⟨false, false, false, false, false, false, 0, 0⟩).1 ≠ 2 := by
  decide

/-- C4 amended: grepfile returns 0 when a match was printed and 1 otherwise —
including when the input had trouble; it never returns 2.  Trouble is instead
recorded in the global errseen flag (by suppressible_error) for the final
exit status. -/
theorem grepfile_status_range (dirs : DirPolicy) (suppress : Bool) (io : FileOutcome)
    (hc : -2 ≤ io.grepCount) (hd : io.grepdirStatus ≤ 1) :
    (grepfile dirs suppress io).1 ≤ 1
    ∧ ((grepfile dirs suppress io).1 = 0 ↔ grepfileMatched dirs io) := by
  unfold grepfile grepfileAfterOpen grepfileMatched
  split_ifs <;> simp_all <;> omega

/-- C4 witness: grepfile_status_range applied to a successfully opened input
with three matching lines. -/
theorem grepfile_status_range_witness :
    (-2 ≤ (3 : Int) ∧ (0 : Nat) ≤ 1)
    ∧ (grepfile DirPolicy.read false ⟨true, false, false, false, false, false, 3, 0⟩).1 ≤ 1
    ∧ ((grepfile DirPolicy.read false ⟨true, false, false, false, false, false, 3, 0⟩).1 = 0
        ↔ grepfileMatched DirPolicy.read ⟨true, false, false, false, false, false, 3, 0⟩) :=
  ⟨by decide,
   (grepfile_status_range DirPolicy.read false _ (by decide) (by decide)).1,
   (grepfile_status_range DirPolicy.read false _ (by decide) (by decide)).2⟩

/-- A successful memchr result lies in the searched range and holds the
searched byte. -/
theorem memchrIdx_some {buf : List Nat} {c start stop i : Nat}
    (h : memchrIdx buf c start stop = some i) :
    start ≤ i ∧ i < stop ∧ buf.getD i 256 = c := by
  have hmem := List.mem_of_find?_eq_some h
  have hp := List.find?_some h
  rw [List.mem_range'_1] at hmem
  refine ⟨hmem.1, ?_, by simpa using hp⟩
  omega

/-- memchr finds a byte when one is present in the range. -/
theorem memchrIdx_isSome {buf : List Nat} {c start stop j : Nat}
    (hj : start ≤ j) (hj2 : j < stop) (hc : buf.getD j 256 = c) :
    ∃ i, memchrIdx buf c start stop = some i := by
  rw [← Option.isSome_iff_exists, memchrIdx, List.find?_isSome]
  exact ⟨j, by rw [List.mem_range'_1]; omega, by simpa using hc⟩

/-- Every interval recorded by the prtext counting loop is nonempty. -/
theorem prtextCountAux_events {buf : List Nat} {eol lim outleft : Nat} :
    ∀ fuel p n acc r evs2, (∀ e ∈ acc, e.1 < e.2) →
      prtextCountAux buf eol lim outleft fuel p n acc = some (r, evs2) →
      ∀ e ∈ evs2, e.1 < e.2 := by
  intro fuel
  induction fuel with
  | zero => intro p n acc r evs2 hacc h; cases h
  | succ fuel ih =>
    intro p n acc r evs2 hacc h
    rw [prtextCountAux] at h
    split at h
    · cases hm : memchrIdx buf eol p lim with
      | none => rw [hm] at h; cases h
      | some i =>
        rw [hm] at h
        have hi := memchrIdx_some hm
        refine ih (i + 1) (n + 1) (acc ++ [(p, i + 1)]) r evs2 ?_ h
        intro e he
        rcases List.mem_append.mp he with h1 | h2
        · exact hacc e h1
        · simp only [List.mem_singleton] at h2
          subst h2
          simp only []
          omega
    · cases h
      exact hacc

/-- The exit path of the grepbuf loop never reports fuel exhaustion. -/
theorem grepbufFinish_ne_fuelOut (buf : List Nat) (eol : Nat) (inv : Bool)
    (lim p nlines outleft : Nat) (evs : List (Nat × Nat)) :
    grepbufFinish buf eol inv lim p nlines outleft evs ≠ GOut.fuelOut := by
  unfold grepbufFinish
  split
  · cases prtextCount buf eol p lim outleft with
    | none => simp
    | some r => cases r; simp
  · simp

/-- When every match that does not start at lim has positive size, the
grepbuf loop finishes within one iteration per remaining byte. -/
theorem grepbufLoop_total (buf : List Nat) (eol : Nat)
    (execute : Nat → Nat → Option (Nat × Nat)) (inv dm em : Bool) (lim : Nat)
    (hwithin : ∀ p off size, execute p (lim - p) = some (off, size) → off + size ≤ lim - p)
    (hsize : ∀ p off size, execute p (lim - p) = some (off, size) → p + off ≠ lim → 1 ≤ size) :
    ∀ fuel p nlines outleft evs, p ≤ lim → lim - p < fuel →
      grepbufLoop buf eol execute inv dm em lim fuel p nlines outleft evs ≠ GOut.fuelOut := by
  intro fuel
  induction fuel with
  | zero => intro p nlines outleft evs hp hf; omega
  | succ fuel ih =>
    intro p nlines outleft evs hp hf
    rw [grepbufLoop]
    cases hce : execute p (lim - p) with
    | none => exact grepbufFinish_ne_fuelOut buf eol inv lim p nlines outleft evs
    | some r =>
      obtain ⟨off, size⟩ := r
      have hos := hwithin p off size hce
      simp only []
      by_cases hb : p + off = lim
      · rw [if_pos hb]
        exact grepbufFinish_ne_fuelOut buf eol inv lim p nlines outleft evs
      · rw [if_neg hb]
        have hsz := hsize p off size hce hb
        have hendp : p + off + size ≤ lim := by omega
        have hnext : lim - (p + off + size) < fuel := by omega
        by_cases hinv : inv = false
        · rw [if_pos hinv]
          split
          · split <;> simp
          · exact ih (p + off + size) (nlines + 1) (outleft - 1)
              (evs ++ [(p + off, p + off + size)]) hendp hnext
        · rw [if_neg hinv]
          by_cases hpb : p < p + off
          · rw [if_pos hpb]
            cases prtextCount buf eol p (p + off) outleft with
            | none => simp
            | some r2 =>
              obtain ⟨n, evs2⟩ := r2
              simp only []
              split
              · simp
              · exact ih (p + off + size) (nlines + n) (outleft - n) (evs ++ evs2)
                  hendp hnext
          · rw [if_neg hpb]
            exact ih (p + off + size) nlines outleft evs hendp hnext

/-- C2 amended: for every matcher execute returning offsets and sizes within
the remaining region whose matches, when they do not start exactly at lim,
have size at least one byte (true of the real matchers, which return whole
lines including their terminator), the scan position advances from p to
endp = p + offset + size, at least one byte per iteration, and consequently
the grepbuf loop finishes within lim - beg + 1 iterations on every finite
region; the unamended claim, quantifying over every matcher, fails on a
zero-size match before lim (grepbuf_zero_width_stall). -/
theorem grepbuf_progress_termination (buf : List Nat) (eol : Nat)
    (execute : Nat → Nat → Option (Nat × Nat)) (inv dm em : Bool)
    (lim beg nlines outleft : Nat) (evs : List (Nat × Nat))
    (hwithin : ∀ p off size, execute p (lim - p) = some (off, size) → off + size ≤ lim - p)
    (hsize : ∀ p off size, execute p (lim - p) = some (off, size) → p + off ≠ lim → 1 ≤ size)
    (hbeg : beg ≤ lim) :
    (∀ p off size, execute p (lim - p) = some (off, size) → p + off ≠ lim →
      p + 1 ≤ p + off + size)
    ∧ grepbufLoop buf eol execute inv dm em lim (lim - beg + 1) beg nlines outleft evs
        ≠ GOut.fuelOut := by
  refine ⟨fun p off size h hb => ?_, ?_⟩
  · have := hsize p off size h hb
    omega
  · exact grepbufLoop_total buf eol execute inv dm em lim hwithin hsize
      (lim - beg + 1) beg nlines outleft evs hbeg (by omega)

/-- C2 witness: grepbuf_progress_termination applied to a line matcher that
returns the whole two-byte line of the buffer. -/
theorem grepbuf_progress_termination_witness :
    (∀ p off size,
      (fun _ n => if 2 ≤ n then some ((0 : Nat), (2 : Nat)) else none) p (2 - p)
        = some (off, size) → off + size ≤ 2 - p)
    ∧ (0 : Nat) ≤ 2
    ∧ grepbufLoop [97, 10] 10 (fun _ n => if 2 ≤ n then some (0, 2) else none)
        false false false 2 (2 - 0 + 1) 0 0 5 [] ≠ GOut.fuelOut := by
  have hwithin : ∀ p off size,
      (fun _ n => if 2 ≤ n then some ((0 : Nat), (2 : Nat)) else none) p (2 - p)
        = some (off, size) → off + size ≤ 2 - p := by
    intro p off size h
    simp only [] at h
    split at h
    · cases h
      omega
    · cases h
  have hsize : ∀ p off size,
      (fun _ n => if 2 ≤ n then some ((0 : Nat), (2 : Nat)) else none) p (2 - p)
        = some (off, size) → p + off ≠ 2 → 1 ≤ size := by
    intro p off size h _
    simp only [] at h
    split at h
    · cases h
      omega
    · cases h
  exact ⟨hwithin, by omega,
    (grepbuf_progress_termination [97, 10] 10 _ false false false 2 0 0 5 []
      hwithin hsize (by omega)).2⟩

/-- C2 counterexample: a matcher returning a zero-size match at offset 0
within the region makes the loop keep p at 0, so the scan position does not
advance at least one byte per iteration and the loop runs past the
lim - beg + 1 = 3 iterations that the amended theorem certifies as
sufficient for any advancing matcher; the loop in fact never terminates. -/
theorem grepbuf_zero_width_stall :
    grepbufLoop [97, 10] 10 (fun _ _ => some (0, 0)) false false false 2 3 0 0 5 []
      = GOut.fuelOut
    ∧ (2 : Nat) - 0 + 1 = 3 := by decide

/-- C8: a match whose start position b equals lim makes the grepbuf loop
break immediately: the outcome is exactly the loop exit path, in normal mode
the result is the unchanged entry state with no printed region and no counted
line, and in inverted mode every region printed by the exit path is a
nonempty interval, so no spurious final empty line is ever emitted. -/
theorem grepbuf_empty_match_at_lim (buf : List Nat) (eol : Nat)
    (execute : Nat → Nat → Option (Nat × Nat)) (inv dm em : Bool)
    (lim beg off size outleft fuel : Nat)
    (hm : execute beg (lim - beg) = some (off, size)) (hb : beg + off = lim) :
    grepbufLoop buf eol execute inv dm em lim (fuel + 1) beg 0 outleft []
      = grepbufFinish buf eol inv lim beg 0 outleft []
    ∧ (inv = false →
        grepbufLoop buf eol execute inv dm em lim (fuel + 1) beg 0 outleft []
          = GOut.ok 0 [] beg outleft)
    ∧ ∀ e ∈ (grepbufLoop buf eol execute inv dm em lim (fuel + 1) beg 0 outleft []).events,
        e.1 < e.2 := by
  have h1 : grepbufLoop buf eol execute inv dm em lim (fuel + 1) beg 0 outleft []
      = grepbufFinish buf eol inv lim beg 0 outleft [] := by
    rw [grepbufLoop, hm]
    simp only [if_pos hb]
  refine ⟨h1, fun hinv => ?_, ?_⟩
  · rw [h1, grepbufFinish, hinv]
    simp
  · rw [h1]
    unfold grepbufFinish
    split
    · cases hpc : prtextCount buf eol beg lim outleft with
      | none => simp [GOut.events]
      | some r =>
        obtain ⟨n, evs2⟩ := r
        simp only [GOut.events, List.nil_append]
        exact prtextCountAux_events (lim - beg + 1) beg 0 [] n evs2 (by simp) hpc
    · simp [GOut.events]

/-- C8 witness: grepbuf_empty_match_at_lim applied to a matcher that returns
the zero-width match at the end of the two-byte buffer. -/
theorem grepbuf_empty_match_at_lim_witness :
    ((fun _ _ => some ((2 : Nat), (0 : Nat))) 0 (2 - 0) = some (2, 0) ∧ (0 : Nat) + 2 = 2)
    ∧ grepbufLoop [97, 10] 10 (fun _ _ => some (2, 0)) false false false 2 (2 + 1) 0 0 7 []
        = GOut.ok 0 [] 0 7 :=
  ⟨⟨rfl, rfl⟩,
   (grepbuf_empty_match_at_lim [97, 10] 10 (fun _ _ => some (2, 0)) false false false
      2 0 2 0 7 2 rfl rfl).2.1 rfl⟩

/-- Page alignment rounds up, stays below the size_t modulus, is divisible by
the page size, and adds less than one page, provided the aligned value cannot
wrap. -/
theorem alignToW_spec (save pagesize : Nat) (hpage : 0 < pagesize)
    (hs : save + pagesize ≤ W) :
    save ≤ alignToW save pagesize ∧ alignToW save pagesize < W
    ∧ pagesize ∣ alignToW save pagesize ∧ alignToW save pagesize ≤ save + pagesize := by
  unfold alignToW
  split_ifs with h
  · refine ⟨le_rfl, by omega, Nat.dvd_of_mod_eq_zero h, by omega⟩
  · have hr : save % pagesize < pagesize := Nat.mod_lt _ hpage
    have hr1 : 1 ≤ save % pagesize := by omega
    have hlt : save + (pagesize - save % pagesize) < W := by omega
    rw [Nat.mod_eq_of_lt hlt]
    refine ⟨by omega, hlt, Nat.dvd_of_mod_eq_zero ?_, by omega⟩
    have hmod : (save + (pagesize - save % pagesize)) % pagesize
        = (save % pagesize + (pagesize - save % pagesize) % pagesize) % pagesize :=
      Nat.add_mod save (pagesize - save % pagesize) pagesize
    rw [hmod, Nat.mod_eq_of_lt (by omega : pagesize - save % pagesize < pagesize)]
    have heq : save % pagesize + (pagesize - save % pagesize) = pagesize := by omega
    rw [heq, Nat.mod_self]

/-- The save-region growth loop either falls back to the page-aligned save
(doubling overflowed) or returns the doubled value directly: the result is
the starting value times a power of two, still below the size_t modulus. -/
theorem growSallocAux_char (save alignedSave : Nat) :
    ∀ fuel b, b < W →
      growSallocAux save alignedSave fuel b = alignedSave
      ∨ ∃ k, growSallocAux save alignedSave fuel b = b * 2 ^ k ∧ b * 2 ^ k < W := by
  intro fuel
  induction fuel with
  | zero =>
    intro b hb
    exact Or.inr ⟨0, by simp [growSallocAux], by simpa using hb⟩
  | succ fuel ih =>
    intro b hb
    rw [growSallocAux]
    split_ifs with h1 h2
    · have hnowrap : b * 2 < W := by
        by_contra hw
        push_neg at hw
        have hsub : b * 2 % W = b * 2 - W := by
          rw [Nat.mod_eq_sub_mod hw, Nat.mod_eq_of_lt (by omega)]
        omega
      rw [Nat.mod_eq_of_lt hnowrap] at h2 ⊢
      rcases ih (b * 2) hnowrap with hA | ⟨k, hk, hklt⟩
      · exact Or.inl hA
      · refine Or.inr ⟨k + 1, ?_, ?_⟩
        · rw [hk, pow_succ]
          ring
        · rw [pow_succ]
          calc b * (2 ^ k * 2) = b * 2 * 2 ^ k := by ring
          _ < W := hklt
    · exact Or.inl rfl
    · exact Or.inr ⟨0, by simp, by simpa using hb⟩

/-- For a regular file whose remaining size is nonnegative, the allocation
cap is at most the page-aligned save plus the remaining file size plus one
page. -/
theorem fillbufMaxalloc_le (pagesize save : Nat) (isReg : Bool) (stSize bufoffset : Int)
    (hpage : 0 < pagesize) (hreg : isReg = true) (htb : 0 ≤ stSize - bufoffset) :
    (fillbufMaxalloc pagesize save isReg stSize bufoffset : Int)
      ≤ (alignToW save pagesize : Int) + (stSize - bufoffset) + pagesize := by
  unfold fillbufMaxalloc
  simp only []
  have h0 : 0 ≤ (stSize - bufoffset).tmod pagesize := Int.tmod_nonneg _ htb
  have h1 : (stSize - bufoffset).tmod pagesize < pagesize :=
    Int.tmod_lt_of_pos _ (by exact_mod_cast hpage)
  have hA := Int.natCast_nonneg (alignToW save pagesize)
  by_cases hz : (stSize - bufoffset).tmod (pagesize : Int) ≠ 0
  · rw [if_pos hz]
    split_ifs with h
    · obtain ⟨-, hnn, hlt⟩ := h
      rw [Int.toNat_of_nonneg hnn]
      omega
    · simp only [hreg, true_and, not_and, not_lt] at h
      have hW_le := h (by omega)
      omega
  · rw [if_neg hz]
    split_ifs with h
    · obtain ⟨-, hnn, hlt⟩ := h
      rw [Int.toNat_of_nonneg hnn]
      omega
    · simp only [hreg, true_and, not_and, not_lt] at h
      have hW_le := h (by omega)
      omega

/-- The allocation cap differs from the unlimited sentinel only for regular
files. -/
theorem fillbufMaxalloc_ne (pagesize save : Nat) (isReg : Bool) (stSize bufoffset : Int)
    (h : fillbufMaxalloc pagesize save isReg stSize bufoffset ≠ W - 1) : isReg = true := by
  by_cases hc : isReg = true
  · exact hc
  · exfalso
    apply h
    unfold fillbufMaxalloc
    simp only []
    rw [if_neg]
    intro hcc
    exact hc hcc.1

/-- C7 amended: when fillbuf is entered with bufsalloc below save and the
growth section does not report memory exhaustion, the new save region is at
least save and stays a multiple of the page size; it is either the result of
repeated doubling of the old bufsalloc (a power-of-two multiple) or the
page-aligned save (the fallback on doubling overflow, also used when the
allocation is capped); the total buffer either keeps its old size (the
request never shrinks the buffer) or grows to a value bounded by the
allocation cap, the grown value being five times the new save region in
size_t arithmetic or, for a regular file whose cap bites, exactly the cap —
which is itself at most the page-aligned save plus the remaining file size
plus one page.  The unamended one-page-past-the-remaining-file-size bound on
the total buffer fails (fillbuf_cap_exceeds_one_page). -/
theorem fillbuf_growth_spec (pagesize save bufsalloc bufalloc : Nat) (isReg : Bool)
    (stSize bufoffset : Int)
    (hpage : 0 < pagesize) (hdvd : pagesize ∣ bufsalloc)
    (hlt : bufsalloc < save) (hbW : bufsalloc < W) (hsW : save + pagesize ≤ W)
    (hfatal : (fillbufGrow pagesize save bufsalloc bufalloc isReg stSize bufoffset).fatal
      = false) :
    save ≤ (fillbufGrow pagesize save bufsalloc bufalloc isReg stSize bufoffset).bufsalloc
    ∧ pagesize ∣ (fillbufGrow pagesize save bufsalloc bufalloc isReg stSize bufoffset).bufsalloc
    ∧ ((fillbufGrow pagesize save bufsalloc bufalloc isReg stSize bufoffset).bufsalloc
         = alignToW save pagesize
       ∨ ∃ k, (fillbufGrow pagesize save bufsalloc bufalloc isReg stSize bufoffset).bufsalloc
         = bufsalloc * 2 ^ k)
    ∧ ((fillbufGrow pagesize save bufsalloc bufalloc isReg stSize bufoffset).bufalloc = bufalloc
       ∨ (bufalloc < (fillbufGrow pagesize save bufsalloc bufalloc isReg stSize
            bufoffset).bufalloc
          ∧ (fillbufGrow pagesize save bufsalloc bufalloc isReg stSize bufoffset).bufalloc
              ≤ fillbufMaxalloc pagesize save isReg stSize bufoffset))
    ∧ ((fillbufGrow pagesize save bufsalloc bufalloc isReg stSize bufoffset).bufalloc = bufalloc
       ∨ (fillbufGrow pagesize save bufsalloc bufalloc isReg stSize bufoffset).bufalloc
           = 5 * (fillbufGrow pagesize save bufsalloc bufalloc isReg stSize
               bufoffset).bufsalloc % W
       ∨ (isReg = true
          ∧ (fillbufGrow pagesize save bufsalloc bufalloc isReg stSize bufoffset).bufsalloc
              = alignToW save pagesize
          ∧ (fillbufGrow pagesize save bufsalloc bufalloc isReg stSize bufoffset).bufalloc
              = fillbufMaxalloc pagesize save isReg stSize bufoffset))
    ∧ (isReg = true → 0 ≤ stSize - bufoffset →
        (fillbufMaxalloc pagesize save isReg stSize bufoffset : Int)
          ≤ (alignToW save pagesize : Int) + (stSize - bufoffset) + pagesize) := by
  have hns : ¬ save ≤ bufsalloc := by omega
  obtain ⟨hA1, hA2, hA3, hA4⟩ := alignToW_spec save pagesize hpage hsW
  have hchar := growSallocAux_char save (alignToW save pagesize) (save + 1) bufsalloc hbW
  rw [fillbufGrow, if_neg hns] at hfatal ⊢
  simp only [] at hfatal ⊢
  set A := alignToW save pagesize with hA
  set M := fillbufMaxalloc pagesize save isReg stSize bufoffset with hM
  set B1 := growSalloc save A bufsalloc with hB1
  have hcharB : B1 = A ∨ ∃ k, B1 = bufsalloc * 2 ^ k := by
    rw [hB1, growSalloc]
    rcases hchar with h | ⟨k, hk, -⟩
    · exact Or.inl h
    · exact Or.inr ⟨k, hk⟩
  have hB1dvd : pagesize ∣ B1 := by
    rcases hcharB with h | ⟨k, hk⟩
    · rw [h]
      exact hA3
    · rw [hk]
      exact Dvd.dvd.mul_right hdvd _
  have hN0lt : 5 * B1 % W < W := Nat.mod_lt _ (by unfold W; positivity)
  by_cases hcap : M < 5 * B1 % W
  · simp only [if_pos hcap] at hfatal ⊢
    have hfcond : ¬(A < save ∨ M < save ∨ (M = save ∧ M ≠ M)) := by
      intro hc
      rw [if_pos hc] at hfatal
      simp at hfatal
    rw [if_neg hfcond]
    push_neg at hfcond
    obtain ⟨hf1, hf2, -⟩ := hfcond
    have hMne : M ≠ W - 1 := by omega
    have hreg : isReg = true := fillbufMaxalloc_ne pagesize save isReg stSize bufoffset
      (by rw [← hM]; exact hMne)
    have htail : isReg = true → 0 ≤ stSize - bufoffset →
        ((M : Int) ≤ (A : Int) + (stSize - bufoffset) + pagesize) := fun h1 h2 => by
      rw [hM, hA]
      exact fillbufMaxalloc_le pagesize save isReg stSize bufoffset hpage h1 h2
    by_cases hba : bufalloc < M
    · rw [if_pos hba]
      exact ⟨hf1, hA3, Or.inl rfl, Or.inr ⟨hba, le_rfl⟩, Or.inr (Or.inr ⟨hreg, rfl, rfl⟩),
        htail⟩
    · rw [if_neg hba]
      exact ⟨hf1, hA3, Or.inl rfl, Or.inl rfl, Or.inl rfl, htail⟩
  · simp only [if_neg hcap] at hfatal ⊢
    have hfcond : ¬(B1 < save ∨ 5 * B1 % W < save ∨ (5 * B1 % W = save ∧ 5 * B1 % W ≠ M)) := by
      intro hc
      rw [if_pos hc] at hfatal
      simp at hfatal
    rw [if_neg hfcond]
    push_neg at hfcond
    obtain ⟨hf1, hf2, -⟩ := hfcond
    have htail : isReg = true → 0 ≤ stSize - bufoffset →
        ((M : Int) ≤ (A : Int) + (stSize - bufoffset) + pagesize) := fun h1 h2 => by
      rw [hM, hA]
      exact fillbufMaxalloc_le pagesize save isReg stSize bufoffset hpage h1 h2
    by_cases hba : bufalloc < 5 * B1 % W
    · rw [if_pos hba]
      exact ⟨hf1, hB1dvd, hcharB, Or.inr ⟨hba, not_lt.mp hcap⟩, Or.inr (Or.inl rfl), htail⟩
    · rw [if_neg hba]
      exact ⟨hf1, hB1dvd, hcharB, Or.inl rfl, Or.inl rfl, htail⟩

/-- C7 counterexample: entry state pagesize 4096, save 5000, bufsalloc 4096,
remaining file size 1000 bytes.  The request is capped at 12288 (the aligned
save 8192 plus one aligned page), yet the claimed bound of one page past the
remaining file size would be 1000 + 4096 = 5096: with an existing 20480-byte
buffer the total stays 20480, and even a freshly grown buffer becomes 12288,
both exceeding 5096. -/
theorem fillbuf_cap_exceeds_one_page :
    fillbufGrow 4096 5000 4096 20480 true 100000 99000
      = ⟨8192, 20480, false⟩
    ∧ ¬((20480 : Int) ≤ (100000 - 99000) + 4096)
    ∧ fillbufGrow 4096 5000 4096 8192 true 100000 99000
      = ⟨8192, 12288, false⟩
    ∧ ¬((12288 : Int) ≤ (100000 - 99000) + 4096) := by
  refine ⟨?_, by decide, ?_, by decide⟩ <;> decide

/-- C7 witness: fillbuf_growth_spec applied to a regular file with 30000
bytes remaining. -/
theorem fillbuf_growth_spec_witness :
    ((0 : Nat) < 4096 ∧ (4096 : Nat) ∣ 4096 ∧ (4096 : Nat) < 5000
      ∧ (4096 : Nat) < W ∧ 5000 + 4096 ≤ W
      ∧ (fillbufGrow 4096 5000 4096 20480 true 30000 0).fatal = false)
    ∧ 5000 ≤ (fillbufGrow 4096 5000 4096 20480 true 30000 0).bufsalloc
    ∧ (4096 : Nat) ∣ (fillbufGrow 4096 5000 4096 20480 true 30000 0).bufsalloc := by
  have hbW : (4096 : Nat) < W := by norm_num [W]
  have hsW : (5000 : Nat) + 4096 ≤ W := by norm_num [W]
  have hfatal : (fillbufGrow 4096 5000 4096 20480 true 30000 0).fatal = false := by decide
  have h := fillbuf_growth_spec 4096 5000 4096 20480 true 30000 0
    (by decide) (by decide) (by decide) hbW hsW hfatal
  exact ⟨⟨by decide, by decide, by decide, hbW, hsW, hfatal⟩, h.1, h.2.1⟩

/-- The per-entry loop of grepdir succeeds when every subdirectory recursion
succeeds. -/
theorem grepdirKids_some (recurse : Nat × Nat → Option (Nat × List (Nat × Nat))) :
    ∀ (entries : List Entry) (st : Nat) (ds : List (Nat × Nat)),
      (∀ n, Entry.dir n ∈ entries → recurse n ≠ none) →
      grepdirKids recurse entries st ds ≠ none := by
  intro entries
  induction entries with
  | nil => intro st ds h; simp [grepdirKids]
  | cons e rest ih =>
    intro st ds h
    cases e with
    | file s =>
      rw [grepdirKids]
      exact ih _ _ fun n hn => h n (List.mem_cons_of_mem _ hn)
    | dir n =>
      rw [grepdirKids]
      cases hr : recurse n with
      | none => exact absurd hr (h n (List.mem_cons_self _ _))
      | some r =>
        obtain ⟨st2, d2⟩ := r
        exact ih _ _ fun m hm => h m (List.mem_cons_of_mem _ hm)

/-- Extending the ancestor chain by the current node removes exactly that
node from the unvisited set. -/
theorem filter_notmem_cons (S : Finset (Nat × Nat)) (chain : List (Nat × Nat))
    (cur : Nat × Nat) :
    S.filter (fun x => x ∉ cur :: chain) = (S.filter (fun x => x ∉ chain)).erase cur := by
  ext x
  simp only [Finset.mem_filter, Finset.mem_erase, List.mem_cons]
  tauto

/-- Directory recursion over a finite node universe closed under children
finishes within one recursion level per unvisited node, because the ancestor
chain check cuts every revisit. -/
theorem grepdirF_total (fs : Nat × Nat → List Entry) (sup : Bool) (S : Finset (Nat × Nat))
    (hcl : ∀ n m, n ∈ S → Entry.dir m ∈ fs n → m ∈ S) :
    ∀ fuel chain cur, cur ∈ S → (S.filter (fun x => x ∉ chain)).card < fuel →
      grepdirF fs sup fuel chain cur ≠ none := by
  intro fuel
  induction fuel with
  | zero => intro chain cur hc hcard; omega
  | succ fuel ih =>
    intro chain cur hc hcard
    rw [grepdirF]
    by_cases hm : cur ∈ chain
    · rw [if_pos hm]
      simp
    · rw [if_neg hm]
      apply grepdirKids_some
      intro n hn
      apply ih (cur :: chain) n (hcl cur n hc hn)
      have hcur : cur ∈ S.filter (fun x => x ∉ chain) := Finset.mem_filter.mpr ⟨hc, hm⟩
      rw [filter_notmem_cons]
      have hce := Finset.card_erase_of_mem hcur
      have hpos := Finset.card_pos.mpr ⟨cur, hcur⟩
      omega

/-- C9: when the (device, inode) pair of the current directory occurs in its
ancestor chain, grepdir reports the recursive-directory-loop diagnostic
(unless suppressed) and returns status 1 immediately — for every filesystem,
so the directory is neither enumerated nor descended into; and on any finite
filesystem (a node universe closed under directory children) the recursion
finishes within one level per unvisited node, so traversal terminates on
filesystems containing loops. -/
theorem grepdir_loop_detection (fs : Nat × Nat → List Entry) (sup : Bool)
    (chain : List (Nat × Nat)) (cur : Nat × Nat) (fuel : Nat) (S : Finset (Nat × Nat))
    (hcl : ∀ n m, n ∈ S → Entry.dir m ∈ fs n → m ∈ S) :
    (cur ∈ chain → ∀ fs2, grepdirF fs2 sup (fuel + 1) chain cur
        = some (1, if sup then [] else [cur]))
    ∧ (cur ∈ S → (S.filter (fun x => x ∉ chain)).card < fuel →
        grepdirF fs sup fuel chain cur ≠ none) := by
  constructor
  · intro hm fs2
    rw [grepdirF, if_pos hm]
  · intro h1 h2
    exact grepdirF_total fs sup S hcl fuel chain cur h1 h2

/-- C9 witness: grepdir_loop_detection applied to a two-directory filesystem
forming a loop, both for the immediate loop return and for termination of the
full traversal from the root. -/
theorem grepdir_loop_detection_witness :
    ((1, 100) ∈ [((1 : Nat), (100 : Nat))])
    ∧ grepdirF (fun x => if x = (1, 100) then [Entry.dir (1, 101)]
        else if x = (1, 101) then [Entry.dir (1, 100)] else []) false (1 + 1)
        [(1, 100)] (1, 100) = some (1, [(1, 100)])
    ∧ grepdirF (fun x => if x = (1, 100) then [Entry.dir (1, 101)]
        else if x = (1, 101) then [Entry.dir (1, 100)] else []) false 3 [] (1, 100)
        ≠ none := by
  have hcl : ∀ n m, n ∈ ({(1, 100), (1, 101)} : Finset (Nat × Nat)) →
      Entry.dir m ∈ (fun x => if x = (1, 100) then [Entry.dir (1, 101)]
        else if x = (1, 101) then [Entry.dir (1, 100)] else []) n →
      m ∈ ({(1, 100), (1, 101)} : Finset (Nat × Nat)) := by
    intro n m hn hm
    fin_cases hn <;> simp_all
  have h1 := grepdir_loop_detection (fun x => if x = (1, 100) then [Entry.dir (1, 101)]
      else if x = (1, 101) then [Entry.dir (1, 100)] else []) false [(1, 100)] (1, 100)
      1 {(1, 100), (1, 101)} hcl
  have h2 := grepdir_loop_detection (fun x => if x = (1, 100) then [Entry.dir (1, 101)]
      else if x = (1, 101) then [Entry.dir (1, 100)] else []) false [] (1, 100)
      3 {(1, 100), (1, 101)} hcl
  exact ⟨by decide, h1.1 (by decide) _, h2.2 (by decide) (by decide)⟩

/-- The inner rewind loop lands on the buffer start or one byte past an
end-of-line byte, without moving above its start. -/
theorem rewindLoop_spec (buf : List Nat) (eol bufbeg : Nat) :
    ∀ b, bufbeg ≤ b →
      (rewindLoop buf eol bufbeg b = bufbeg
       ∨ (0 < rewindLoop buf eol bufbeg b
          ∧ buf.getD (rewindLoop buf eol bufbeg b - 1) 256 = eol))
      ∧ bufbeg ≤ rewindLoop buf eol bufbeg b ∧ rewindLoop buf eol bufbeg b ≤ b := by
  intro b
  induction b with
  | zero =>
    intro hb
    have h0 : bufbeg = 0 := by omega
    simp [rewindLoop, h0]
  | succ b ih =>
    intro hb
    rw [rewindLoop]
    split_ifs with h
    · obtain ⟨h1, h2⟩ := h
      have hspec := ih (by omega)
      exact ⟨hspec.1, hspec.2.1, by omega⟩
    · push_neg at h
      by_cases hle : bufbeg < b + 1
      · have heol : buf.getD b 256 = eol := h hle
        exact ⟨Or.inr ⟨by omega, by simpa using heol⟩, by omega, le_rfl⟩
      · exact ⟨Or.inl (by omega), by omega, le_rfl⟩

/-- The leading-context rewind keeps its start position, or lands on the
buffer start or one byte past an end-of-line byte. -/
theorem contextRewind_spec (buf : List Nat) (eol bufbeg : Nat) (lastout : Option Nat) :
    ∀ k beg, bufbeg ≤ beg →
      (contextRewind buf eol bufbeg lastout k beg = beg
       ∨ contextRewind buf eol bufbeg lastout k beg = bufbeg
       ∨ (0 < contextRewind buf eol bufbeg lastout k beg
          ∧ buf.getD (contextRewind buf eol bufbeg lastout k beg - 1) 256 = eol))
      ∧ bufbeg ≤ contextRewind buf eol bufbeg lastout k beg := by
  intro k
  induction k with
  | zero => intro beg hb; exact ⟨Or.inl rfl, hb⟩
  | succ k ih =>
    intro beg hb
    rw [contextRewind]
    split_ifs with h
    · obtain ⟨h1, h2⟩ := h
      have hrw := rewindLoop_spec buf eol bufbeg (beg - 1) (by omega)
      have hrec := ih (rewindLoop buf eol bufbeg (beg - 1)) hrw.2.1
      refine ⟨?_, hrec.2⟩
      rcases hrec.1 with heq | hbb | hpe
      · rw [heq]
        rcases hrw.1 with h3 | h4
        · exact Or.inr (Or.inl h3)
        · exact Or.inr (Or.inr h4)
      · exact Or.inr (Or.inl hbb)
      · exact Or.inr (Or.inr hpe)
    · exact ⟨Or.inl rfl, hb⟩

/-- The residue scan keeps its lower bound, or lands one byte past an
end-of-line byte, within the scanned interval. -/
theorem residueScan_spec (buf : List Nat) (eol beg : Nat) :
    ∀ lim, beg ≤ lim →
      (residueScan buf eol beg lim = beg
       ∨ (0 < residueScan buf eol beg lim
          ∧ buf.getD (residueScan buf eol beg lim - 1) 256 = eol))
      ∧ beg ≤ residueScan buf eol beg lim ∧ residueScan buf eol beg lim ≤ lim := by
  intro lim
  induction lim with
  | zero =>
    intro hb
    have h0 : beg = 0 := by omega
    simp [residueScan, h0]
  | succ lim ih =>
    intro hb
    rw [residueScan]
    split_ifs with h
    · obtain ⟨h1, h2⟩ := h
      have hspec := ih (by omega)
      exact ⟨hspec.1, hspec.2.1, by omega⟩
    · push_neg at h
      by_cases hle : beg < lim + 1
      · have heol : buf.getD lim 256 = eol := h hle
        exact ⟨Or.inr ⟨by omega, by simpa using heol⟩, by omega, le_rfl⟩
      · exact ⟨Or.inl (by omega), by omega, le_rfl⟩

/-- The nlscan loop completes without the memchr NULL case whenever its upper
limit equals the start or sits one byte past an end-of-line byte. -/
theorem nlscanGo_safe (buf : List Nat) (eol lim : Nat) :
    ∀ fuel beg t, beg ≤ lim → lim - beg < fuel →
      (beg = lim ∨ buf.getD (lim - 1) 256 = eol) →
      ∃ r, nlscanGo buf eol lim fuel beg t = some r := by
  intro fuel
  induction fuel with
  | zero => intro beg t hb hf _; omega
  | succ fuel ih =>
    intro beg t hb hf hpre
    rw [nlscanGo]
    by_cases hbl : beg = lim
    · rw [if_pos hbl]
      exact ⟨t, rfl⟩
    · rw [if_neg hbl]
      have hlt : beg < lim := by omega
      have heol : buf.getD (lim - 1) 256 = eol := hpre.resolve_left hbl
      obtain ⟨i, hi⟩ := memchrIdx_isSome (show beg ≤ lim - 1 by omega)
        (show lim - 1 < lim by omega) heol
      rw [hi]
      obtain ⟨hi1, hi2, -⟩ := memchrIdx_some hi
      exact ih (i + 1) (t + 1) (by omega) (by omega) (Or.inr heol)

/-- C10: for the nlscan call that grep makes before refilling the buffer, at
the position obtained by the residue scan followed by the leading-context
rewind, the region scanned by nlscan is a concatenation of complete lines —
the limit equals lastnl or sits one byte past an end-of-line byte — provided
the save region starts at a line boundary and lastnl lies between the buffer
start and that position; consequently the memchr inside nlscan never returns
NULL and the loop completes (second conjunct); and the same safety holds for
every nlscan call whose limit is a line start, which covers the calls made by
prline, whose line beginnings are one past an end-of-line byte or equal to
lastnl (third conjunct). -/
theorem nlscan_safety (buf : List Nat) (eol bufbeg scanStart buflim out_before lastnl t : Nat)
    (lastout : Option Nat)
    (hss : scanStart = bufbeg ∨ (0 < scanStart ∧ buf.getD (scanStart - 1) 256 = eol))
    (hb1 : bufbeg ≤ scanStart) (hs2 : scanStart ≤ buflim)
    (hln1 : bufbeg ≤ lastnl)
    (hln2 : lastnl ≤ contextRewind buf eol bufbeg lastout out_before
        (residueScan buf eol scanStart buflim)) :
    (contextRewind buf eol bufbeg lastout out_before (residueScan buf eol scanStart buflim)
        = lastnl
     ∨ (0 < contextRewind buf eol bufbeg lastout out_before
          (residueScan buf eol scanStart buflim)
        ∧ buf.getD (contextRewind buf eol bufbeg lastout out_before
            (residueScan buf eol scanStart buflim) - 1) 256 = eol))
    ∧ (∃ r, nlscanGo buf eol
        (contextRewind buf eol bufbeg lastout out_before (residueScan buf eol scanStart buflim))
        (contextRewind buf eol bufbeg lastout out_before (residueScan buf eol scanStart buflim)
          + 1 - lastnl)
        lastnl t = some r)
    ∧ (∀ b, lastnl ≤ b → (b = lastnl ∨ (0 < b ∧ buf.getD (b - 1) 256 = eol)) →
        ∃ r, nlscanGo buf eol b (b + 1 - lastnl) lastnl t = some r) := by
  have hr := residueScan_spec buf eol scanStart buflim hs2
  set L0 := residueScan buf eol scanStart buflim with hL0
  have hcr := contextRewind_spec buf eol bufbeg lastout out_before L0 (by omega)
  set B := contextRewind buf eol bufbeg lastout out_before L0 with hB
  have hP : B = lastnl ∨ (0 < B ∧ buf.getD (B - 1) 256 = eol) := by
    rcases hcr.1 with heq | hbb | hpe
    · rcases hr.1 with h1 | h2
      · rcases hss with h3 | h4
        · left
          omega
        · right
          rw [heq, h1]
          exact h4
      · right
        rw [heq]
        exact h2
    · left
      omega
    · right
      exact hpe
  refine ⟨hP, ?_, ?_⟩
  · apply nlscanGo_safe buf eol B (B + 1 - lastnl) lastnl t hln2 (by omega)
    rcases hP with h1 | h2
    · exact Or.inl h1.symm
    · exact Or.inr h2.2
  · intro b hble hbpre
    apply nlscanGo_safe buf eol b (b + 1 - lastnl) lastnl t hble (by omega)
    rcases hbpre with h1 | h2
    · exact Or.inl h1.symm
    · exact Or.inr h2.2

/-- C10 witness: nlscan_safety applied to the six-byte buffer holding two
complete lines, with one line of leading context. -/
theorem nlscan_safety_witness :
    ((0 : Nat) = 0 ∨ (0 < (0 : Nat)
      ∧ ([97, 98, 10, 99, 100, 10] : List Nat).getD (0 - 1) 256 = 10))
    ∧ (0 : Nat) ≤ contextRewind [97, 98, 10, 99, 100, 10] 10 0 none 1
        (residueScan [97, 98, 10, 99, 100, 10] 10 0 6)
    ∧ (∃ r, nlscanGo [97, 98, 10, 99, 100, 10] 10
        (contextRewind [97, 98, 10, 99, 100, 10] 10 0 none 1
          (residueScan [97, 98, 10, 99, 100, 10] 10 0 6))
        (contextRewind [97, 98, 10, 99, 100, 10] 10 0 none 1
          (residueScan [97, 98, 10, 99, 100, 10] 10 0 6) + 1 - 0)
        0 0 = some r) :=
  ⟨Or.inl rfl, by decide,
   (nlscan_safety [97, 98, 10, 99, 100, 10] 10 0 0 6 1 0 0 none (Or.inl rfl)
     (by decide) (by decide) (by decide) (by decide)).2.1⟩

end Grep
